import Mathlib

/-!
Verification of the task-executor core of the repository
(`src/async/execution/src/main.rs`): a hand-built future-polling runtime
with a waker-driven task queue (a bounded `std::sync::mpsc::sync_channel`),
an `Executor::run` polling loop, a `Spawner`, an `ArcWake` implementation
for `Task`, and a `TimerFuture` driven by a background thread.

The embedding is shallow:

* `PollRes` is `std::task::Poll<()>` (all computations in this program have
  output `()`).
* A `Waker` is identified by the task it re-enqueues (`waker_ref(&task)`
  produces a waker whose invocation sends that very task on the channel),
  so a waker is modelled by the task id.
* A computation (`BoxFuture<'static, ()>`, an opaque trait object) is an
  arbitrary type `C` together with a poll step
  `pollFn : C -> Waker -> PollRes × C`; the waker argument is the waker of
  the `Context` handed to `Future::poll`.
* The channel of `sync_channel(cap)` is a FIFO list; `syncSend` and
  `syncRecv` follow the documented semantics of
  `SyncSender::send` / `Receiver::recv`: a send on a full channel with a
  live receiver blocks, a send after the receiver is dropped returns
  `Err(SendError)`, a receive on an empty channel blocks while senders
  exist and returns `Err(RecvError)` once all senders are dropped.
* The concurrent system (one executor thread, plus arbitrary threads that
  invoke wakers or spawn) is a labelled step relation `Step` on `SysState`;
  the executor's bracketed critical section (the future-slot mutex is held
  from `lock()` to the end of the loop body) is split into a take step and
  a finish step so that wake steps from other threads can interleave with
  an in-progress poll, exactly as in the source.
-/

namespace ExrustExec

/-- Result of one poll step: `std::task::Poll<()>`. -/
inductive PollRes where
  | ready
  | pending
deriving DecidableEq, Repr

/-- A waker is the capability to re-enqueue one specific task
(`waker_ref(&task)`), so it is identified by that task's id. -/
abbrev Waker := Nat

/-! ### TimerFuture (`TimerFuture`, `SharedState`, the timer thread) -/

/-- `SharedState`: completion flag plus the optional waker captured by the
last poll, shared between `TimerFuture` and the timer thread. -/
structure SharedState where
  completed : Bool
  waker : Option Waker
deriving DecidableEq, Repr

/-- The state built by `TimerFuture::new` before the thread is spawned:
`completed: false, waker: None`. -/
def SharedState.new : SharedState := { completed := false, waker := none }

/-- `Future::poll` for `TimerFuture`: under the `shared_state` lock, if
`completed` report `Ready(())`; otherwise store a clone of the context's
waker (overwriting any previous one) and report `Pending`. -/
def timerPoll (s : SharedState) (cx : Waker) : PollRes × SharedState :=
  if s.completed then
    (PollRes.ready, s)
  else
    (PollRes.pending, { s with waker := some cx })

/-- The body of the timer thread after `thread::sleep(duration)`: under the
lock, set `completed = true`, `take()` the stored waker and invoke it if it
was present.  The second component lists the wakers that get invoked
(`w.toList` is `[w]` for `some w` and `[]` for `none`). -/
def timerExpire (s : SharedState) : SharedState × List Waker :=
  ({ completed := true, waker := none }, s.waker.toList)

/-! ### The bounded channel (`std::sync::mpsc::sync_channel`) -/

/-- Outcome of `SyncSender::send`. -/
inductive SendResult (α : Type) where
  | sent (queue : List α)
  | wouldBlock
  | disconnected
deriving DecidableEq, Repr

/-- `SyncSender::send` on a channel with buffer `queue` and capacity `cap`:
if the receiver has been dropped the result is `Err(SendError)`
(`disconnected`); otherwise the message is buffered if there is room, and
the call blocks until room appears if the buffer is full. -/
def syncSend (cap : Nat) (receiverAlive : Bool) (queue : List α) (a : α) :
    SendResult α :=
  if receiverAlive = false then
    SendResult.disconnected
  else if queue.length < cap then
    SendResult.sent (queue ++ [a])
  else
    SendResult.wouldBlock

/-- Outcome of `Receiver::recv`. -/
inductive RecvResult (α : Type) where
  | received (a : α) (rest : List α)
  | wouldBlock
  | disconnected
deriving DecidableEq, Repr

/-- `Receiver::recv`: take the oldest buffered message; on an empty buffer
block while at least one sender is still alive, and return `Err(RecvError)`
once every sender has been dropped. -/
def syncRecv (queue : List α) (sendersOpen : Bool) : RecvResult α :=
  match queue with
  | a :: rest => RecvResult.received a rest
  | [] => if sendersOpen then RecvResult.wouldBlock else RecvResult.disconnected

/-- The sequence of messages the receiver observes when it drains the
buffer by repeated `recv` (each `recv` on `a :: rest` is
`received a rest`, see `syncRecv`): the buffered messages in buffer
order. -/
def recvSeq : List α → List α
  | [] => []
  | a :: rest => a :: recvSeq rest

theorem recvSeq_eq (l : List α) : recvSeq l = l := by
  induction l with
  | nil => rfl
  | cons a rest ih => simpa [recvSeq] using ih

theorem recvSeq_matches_syncRecv (a : α) (rest : List α) (so : Bool) :
    syncRecv (a :: rest) so = RecvResult.received a rest := rfl

/-! ### One iteration of `Executor::run` -/

/-- The body of one iteration of the `while let Ok(task)` loop in
`Executor::run`, acting on the task's future slot while the slot mutex is
held.  `tid` is the id of the received task; `waker_ref(&task)` makes the
context's waker equal to `tid`.  The result is the new contents of the slot
together with the number of times `poll` was invoked during the
iteration. -/
def runIteration (pollFn : C → Waker → PollRes × C) (tid : Nat)
    (slot : Option C) : Option C × Nat :=
  match slot with
  | none => (none, 0)
  | some future =>
    match pollFn future tid with
    | (PollRes.pending, f) => (some f, 1)
    | (PollRes.ready, _) => (none, 1)

/-- How a call to `Executor::run` ends. -/
inductive RunOutcome (C : Type) where
  | returned (slots : List (Option C))
  | blockedRecv (slots : List (Option C))
deriving DecidableEq

/-- `Executor::run` in the absence of concurrent sends: repeatedly `recv`,
run one iteration on the received task, and stop according to `syncRecv`:
return when the channel is empty and every sender is gone
(`Err(RecvError)` ends the `while let`), block on an empty channel while a
sender remains.  `slots` maps task ids to future slots. -/
def runLoop (pollFn : C → Waker → PollRes × C) (sendersOpen : Bool) :
    List Nat → List (Option C) → RunOutcome C
  | [], slots =>
    if sendersOpen then RunOutcome.blockedRecv slots else RunOutcome.returned slots
  | t :: rest, slots =>
    runLoop pollFn sendersOpen rest
      (slots.set t (runIteration pollFn t ((slots.get? t).getD none)).1)

/-! ### `Spawner::spawn` and `ArcWake for Task` over the channel -/

/-- A `Task` as stored in the channel: the mutex-guarded future slot.
(The `task_sender` field is a clone of the one channel's sender and needs
no per-task data.) -/
structure TaskModel (C : Type) where
  future : Option C
deriving DecidableEq, Repr

/-- The freshly spawned task built in `Spawner::spawn`:
`future: Mutex::new(Some(future))`. -/
def mkTask (c : C) : TaskModel C := { future := some c }

/-- Outcome of a call to `Spawner::spawn`. -/
inductive SpawnOutcome (C : Type) where
  | spawned (queue : List (TaskModel C))
  | blockedSend
  | panicked (msg : String)
deriving DecidableEq

/-- `Spawner::spawn`: box the computation into a fresh task and
`self.task_sender.send(task).expect("too many tasks queued")`.  The
`expect` panics exactly when `send` returns `Err`, i.e. when the receiver
has been dropped; a full buffer with a live receiver makes `send` (and
hence `spawn`) block. -/
def spawnModel (cap : Nat) (receiverAlive : Bool) (queue : List (TaskModel C))
    (c : C) : SpawnOutcome C :=
  match syncSend cap receiverAlive queue (mkTask c) with
  | SendResult.sent q => SpawnOutcome.spawned q
  | SendResult.wouldBlock => SpawnOutcome.blockedSend
  | SendResult.disconnected => SpawnOutcome.panicked "too many tasks queued"

/-- Outcome of one waker invocation. -/
inductive WakeOutcome where
  | enqueued (queue : List Nat)
  | blockedSend
  | panicked (msg : String)
deriving DecidableEq

/-- `ArcWake::wake_by_ref` for `Task`: send a clone of the task on the
channel, `.expect("Too many tasks queued")`.  The queue holds task ids. -/
def wakeByRef (cap : Nat) (receiverAlive : Bool) (queue : List Nat)
    (t : Nat) : WakeOutcome :=
  match syncSend cap receiverAlive queue t with
  | SendResult.sent q => WakeOutcome.enqueued q
  | SendResult.wouldBlock => WakeOutcome.blockedSend
  | SendResult.disconnected => WakeOutcome.panicked "Too many tasks queued"

/-! ### The concurrent system as a labelled transition system

One executor thread runs `Executor::run`; other threads may invoke wakers
(the timer thread of a `TimerFuture`, or any thread holding a cloned
waker) or spawn tasks through a `Spawner`.  The executor holds the
future-slot mutex for the whole loop body, so the slot changes of one
iteration are bracketed: `takeRun` dequeues the task and takes the future
out of the slot, `finishPoll` completes the poll and either restores the
slot (`Pending`) or leaves it empty (`Ready`).  Wake and spawn steps only
touch the channel and may interleave anywhere. -/

/-- Control state of the single executor thread: between iterations, or
inside the loop body polling task `t` whose future `f` it took out. -/
inductive ExecCtl (C : Type) where
  | idle
  | polling (t : Nat) (future : C)
deriving DecidableEq

/-- Global state: the channel buffer (task ids, oldest first), the future
slot of every task ever created (index = task id), the executor's control
state, and whether `Spawner` handles still exist. -/
structure SysState (C : Type) where
  queue : List Nat
  slots : List (Option C)
  ctl : ExecCtl C
  sendersOpen : Bool
deriving DecidableEq

/-- The contents of task `t`'s future slot (`none` also for ids never
allocated). -/
def slotAt : List (Option C) → Nat → Option C
  | [], _ => none
  | s :: _, 0 => s
  | _ :: rest, n + 1 => slotAt rest n

/-- Whether the executor is currently polling task `t`. -/
def SysState.isPolling (s : SysState C) (t : Nat) : Bool :=
  match s.ctl with
  | ExecCtl.idle => false
  | ExecCtl.polling u _ => u == t

/-- Observable events of the system. -/
inductive Label (C : Type) where
  | wake (t : Nat)
  | spawnTask (c : C)
  | dropSpawner
  | takeSkip (t : Nat)
  | takeRun (t : Nat)
  | finishPoll (t : Nat)

/-- One step of the system.  `pollFn` is the poll function of every
computation; `cap` is the channel capacity (10000 in the source). -/
inductive Step (pollFn : C → Waker → PollRes × C) (cap : Nat) :
    SysState C → Label C → SysState C → Prop where
  | wake (s : SysState C) (t : Nat)
      (ht : t < s.slots.length)
      (hcap : s.queue.length < cap) :
      Step pollFn cap s (Label.wake t) { s with queue := s.queue ++ [t] }
  | spawnTask (s : SysState C) (c : C)
      (hopen : s.sendersOpen = true)
      (hcap : s.queue.length < cap) :
      Step pollFn cap s (Label.spawnTask c)
        { s with slots := s.slots ++ [some c],
                 queue := s.queue ++ [s.slots.length] }
  | dropSpawner (s : SysState C) :
      Step pollFn cap s Label.dropSpawner { s with sendersOpen := false }
  | takeSkip (s : SysState C) (t : Nat) (rest : List Nat)
      (hidle : s.ctl = ExecCtl.idle)
      (hq : s.queue = t :: rest)
      (hslot : slotAt s.slots t = none) :
      Step pollFn cap s (Label.takeSkip t) { s with queue := rest }
  | takeRun (s : SysState C) (t : Nat) (rest : List Nat) (f : C)
      (hidle : s.ctl = ExecCtl.idle)
      (hq : s.queue = t :: rest)
      (hslot : slotAt s.slots t = some f) :
      Step pollFn cap s (Label.takeRun t)
        { s with queue := rest,
                 slots := s.slots.set t none,
                 ctl := ExecCtl.polling t f }
  | finishPoll (s : SysState C) (t : Nat) (f : C)
      (hctl : s.ctl = ExecCtl.polling t f) :
      Step pollFn cap s (Label.finishPoll t)
        { s with ctl := ExecCtl.idle,
                 slots :=
                   match pollFn f t with
                   | (PollRes.pending, f2) => s.slots.set t (some f2)
                   | (PollRes.ready, _) => s.slots }

/-- A finite trace of steps with its list of labels. -/
inductive Steps (pollFn : C → Waker → PollRes × C) (cap : Nat) :
    SysState C → List (Label C) → SysState C → Prop where
  | nil (s : SysState C) : Steps pollFn cap s [] s
  | cons {s s1 s2 : SysState C} {l : Label C} {ls : List (Label C)}
      (h : Step pollFn cap s l s1) (hs : Steps pollFn cap s1 ls s2) :
      Steps pollFn cap s (l :: ls) s2

/-- Number of `wake t` events in a list of labels. -/
def wakeCount (t : Nat) : List (Label C) → Nat
  | [] => 0
  | Label.wake u :: ls => (if u = t then 1 else 0) + wakeCount t ls
  | _ :: ls => wakeCount t ls

/-- Number of `takeRun t` events (= polls of task `t`) in a list of
labels. -/
def runCount (t : Nat) : List (Label C) → Nat
  | [] => 0
  | Label.takeRun u :: ls => (if u = t then 1 else 0) + runCount t ls
  | _ :: ls => runCount t ls

/-- Number of `takeSkip t` events in a list of labels. -/
def skipCount (t : Nat) : List (Label C) → Nat
  | [] => 0
  | Label.takeSkip u :: ls => (if u = t then 1 else 0) + skipCount t ls
  | _ :: ls => skipCount t ls

/-- Number of occurrences of task id `t` in a channel buffer. -/
def queueCount (t : Nat) : List Nat → Nat
  | [] => 0
  | u :: rest => (if u = t then 1 else 0) + queueCount t rest

/-! ### Helper lemmas on slots, buffers and label counts -/

theorem slotAt_nil (t : Nat) : slotAt ([] : List (Option C)) t = none := rfl

theorem slotAt_cons_zero (a : Option C) (l : List (Option C)) :
    slotAt (a :: l) 0 = a := rfl

theorem slotAt_cons_succ (a : Option C) (l : List (Option C)) (n : Nat) :
    slotAt (a :: l) (n + 1) = slotAt l n := rfl

theorem slotAt_lt_length {l : List (Option C)} {t : Nat} {f : C}
    (h : slotAt l t = some f) : t < l.length := by
  induction l generalizing t with
  | nil => simp [slotAt] at h
  | cons a rest ih =>
    cases t with
    | zero => simp
    | succ n => simpa using ih (t := n) h

theorem slotAt_set_self {l : List (Option C)} {t : Nat} (h : t < l.length)
    (v : Option C) : slotAt (l.set t v) t = v := by
  induction l generalizing t with
  | nil => simp at h
  | cons a rest ih =>
    cases t with
    | zero => rfl
    | succ n => exact ih (Nat.lt_of_succ_lt_succ h) 

theorem slotAt_set_ne {l : List (Option C)} {t u : Nat} (h : t ≠ u)
    (v : Option C) : slotAt (l.set t v) u = slotAt l u := by
  induction l generalizing t u with
  | nil => rfl
  | cons a rest ih =>
    cases t with
    | zero =>
      cases u with
      | zero => exact absurd rfl h
      | succ m => rfl
    | succ n =>
      cases u with
      | zero => rfl
      | succ m => exact ih (fun he => h (by rw [he]))

theorem slotAt_append {l l2 : List (Option C)} {u : Nat} (h : u < l.length) :
    slotAt (l ++ l2) u = slotAt l u := by
  induction l generalizing u with
  | nil => simp at h
  | cons a rest ih =>
    cases u with
    | zero => rfl
    | succ n => exact ih (Nat.lt_of_succ_lt_succ h)

theorem queueCount_append (t : Nat) (q1 q2 : List Nat) :
    queueCount t (q1 ++ q2) = queueCount t q1 + queueCount t q2 := by
  induction q1 with
  | nil => simp [queueCount]
  | cons u rest ih => simp [queueCount, ih]; omega

theorem wakeCount_cons (t : Nat) (l : Label C) (ls : List (Label C)) :
    wakeCount t (l :: ls) = wakeCount t [l] + wakeCount t ls := by
  cases l <;> simp [wakeCount]

theorem runCount_cons (t : Nat) (l : Label C) (ls : List (Label C)) :
    runCount t (l :: ls) = runCount t [l] + runCount t ls := by
  cases l <;> simp [runCount]

theorem skipCount_cons (t : Nat) (l : Label C) (ls : List (Label C)) :
    skipCount t (l :: ls) = skipCount t [l] + skipCount t ls := by
  cases l <;> simp [skipCount]

/-! ### Concrete computations used to instantiate the opaque future type
(playing the part of the async block spawned in `main`) -/

/-- A concrete computation that completes on its first poll. -/
def exampleReady : Bool → Waker → PollRes × Bool :=
  fun b _ => (PollRes.ready, b)

/-- A concrete computation that always reports pending. -/
def examplePending : Bool → Waker → PollRes × Bool :=
  fun b _ => (PollRes.pending, b)

/-! ### C1: one iteration of the executor loop -/

/-- C1: one step of `Executor::run` on a received task: if the future slot
is empty the task is skipped and no poll occurs; otherwise the computation
is taken out and polled exactly once with the waker bound to the task
(`tid`), is put back on `Pending`, and the slot stays empty on `Ready`. -/
theorem executor_iteration_contract {C : Type}
    (pollFn : C → Waker → PollRes × C) (tid : Nat) (slot : Option C) :
    (slot = none → runIteration pollFn tid slot = (none, 0)) ∧
    (∀ f, slot = some f →
      (runIteration pollFn tid slot).2 = 1 ∧
      ((pollFn f tid).1 = PollRes.pending →
        (runIteration pollFn tid slot).1 = some (pollFn f tid).2) ∧
      ((pollFn f tid).1 = PollRes.ready →
        (runIteration pollFn tid slot).1 = none)) := by
  constructor
  · intro h
    subst h
    rfl
  · intro f hf
    subst hf
    rcases hpoll : pollFn f tid with ⟨r, f2⟩
    cases r <;> simp [runIteration, hpoll]

theorem executor_iteration_contract_witness :
    runIteration examplePending 0 (some false) = (some false, 1) ∧
    runIteration exampleReady 0 (some false) = (none, 1) ∧
    runIteration exampleReady 0 (none : Option Bool) = (none, 0) := by
  have h1 := (executor_iteration_contract examplePending 0 (some false)).2 false rfl
  have h2 := (executor_iteration_contract exampleReady 0 (some false)).2 false rfl
  have h3 := (executor_iteration_contract exampleReady 0 (none : Option Bool)).1 rfl
  refine ⟨?_, ?_, h3⟩
  · have hfst := h1.2.1 rfl
    have hsnd := h1.1
    exact Prod.ext hfst hsnd
  · have hfst := h2.2.2 rfl
    have hsnd := h2.1
    exact Prod.ext hfst hsnd

/-! ### C6 and C7: the TimerFuture protocol -/

/-- C6: each poll of a `TimerFuture` reports `Ready(())` (leaving the
shared state untouched) when the completion flag is set, and otherwise
stores a fresh clone of the current context waker, overwriting whatever
waker was stored before, and reports `Pending`. -/
theorem timer_poll_contract (s : SharedState) (w : Waker) :
    (s.completed = true → timerPoll s w = (PollRes.ready, s)) ∧
    (s.completed = false →
      timerPoll s w =
        (PollRes.pending, { completed := false, waker := some w })) := by
  obtain ⟨c, wk⟩ := s
  constructor
  · intro h
    simp only at h
    subst h
    rfl
  · intro h
    simp only at h
    subst h
    rfl

theorem timer_poll_contract_witness :
    timerPoll { completed := true, waker := some 3 } 7 =
      (PollRes.ready, { completed := true, waker := some 3 }) ∧
    timerPoll { completed := false, waker := some 3 } 7 =
      (PollRes.pending, { completed := false, waker := some 7 }) :=
  ⟨(timer_poll_contract { completed := true, waker := some 3 } 7).1 rfl,
   (timer_poll_contract { completed := false, waker := some 3 } 7).2 rfl⟩

/-- C7: the completion flag is monotone under both operations that touch
a `SharedState` (the future's poll and the timer thread's expiry body);
the flag starts out false, the expiry body sets it, and upon setting it
the thread invokes the previously captured waker exactly once when one
exists and not at all otherwise. -/
theorem timer_completed_monotone :
    (∀ (s : SharedState) (w : Waker), s.completed = true →
      ((timerPoll s w).2).completed = true) ∧
    (∀ s : SharedState, ((timerExpire s).1).completed = true) ∧
    (∀ s : SharedState,
      (timerExpire s).2.length = if s.waker.isSome then 1 else 0) ∧
    (∀ (s : SharedState) (w : Waker), s.waker = some w →
      (timerExpire s).2 = [w]) ∧
    SharedState.new.completed = false := by
  refine ⟨?_, fun s => rfl, ?_, ?_, rfl⟩
  · intro s w h
    simp [timerPoll, h]
  · intro s
    obtain ⟨c, wk⟩ := s
    cases wk <;> rfl
  · intro s w h
    simp [timerExpire, h]

theorem timer_completed_monotone_witness :
    ((timerPoll { completed := true, waker := none } 5).2).completed = true ∧
    ((timerExpire { completed := false, waker := some 4 }).1).completed = true ∧
    (timerExpire { completed := false, waker := some 4 }).2 = [4] :=
  ⟨timer_completed_monotone.1 { completed := true, waker := none } 5 rfl,
   timer_completed_monotone.2.1 { completed := false, waker := some 4 },
   timer_completed_monotone.2.2.2.1 { completed := false, waker := some 4 } 4 rfl⟩

/-! ### C4: behaviour of `Spawner::spawn` on a full queue

The claim says a spawn onto a full queue aborts; `SyncSender::send` on a
full buffer with a live receiver in fact blocks, and the
`expect("too many tasks queued")` fires only when the receiver has been
dropped. -/

theorem spawn_at_capacity_counterexample :
    spawnModel 1 true [mkTask true] false = SpawnOutcome.blockedSend ∧
    (SpawnOutcome.blockedSend : SpawnOutcome Bool) ≠
      SpawnOutcome.panicked "too many tasks queued" ∧
    (SpawnOutcome.blockedSend : SpawnOutcome Bool) ≠
      SpawnOutcome.spawned [mkTask true, mkTask false] := by
  refine ⟨rfl, ?_, ?_⟩ <;> intro h <;> cases h

/-- C4 (amended): a spawn onto a queue at capacity with the receiver
(Executor) alive blocks until space frees, neither aborting nor dropping
the task; with room it enqueues exactly the new task; the fatal panic
with message "too many tasks queued" occurs exactly when the receiving
end has been dropped. -/
theorem spawn_overflow_amended {C : Type} (cap : Nat)
    (queue : List (TaskModel C)) (c : C) :
    (cap ≤ queue.length →
      spawnModel cap true queue c = SpawnOutcome.blockedSend) ∧
    (queue.length < cap →
      spawnModel cap true queue c = SpawnOutcome.spawned (queue ++ [mkTask c])) ∧
    spawnModel cap false queue c =
      SpawnOutcome.panicked "too many tasks queued" := by
  refine ⟨?_, ?_, ?_⟩
  · intro h
    simp [spawnModel, syncSend, Nat.not_lt.mpr h]
  · intro h
    simp [spawnModel, syncSend, h]
  · simp [spawnModel, syncSend]

theorem spawn_overflow_amended_witness :
    spawnModel 1 true [mkTask true] false = SpawnOutcome.blockedSend ∧
    spawnModel 2 true [mkTask true] false =
      SpawnOutcome.spawned [mkTask true, mkTask false] ∧
    spawnModel 1 false [mkTask true] false =
      SpawnOutcome.panicked "too many tasks queued" :=
  ⟨(spawn_overflow_amended 1 [mkTask true] false).1 (by decide),
   (spawn_overflow_amended 2 [mkTask true] false).2.1 (by decide),
   (spawn_overflow_amended 1 [mkTask true] false).2.2⟩

/-! ### C9: waking after the Executor is dropped panics -/

/-- C9: once the receiving end of the channel is gone,
`Task::wake_by_ref` panics with "Too many tasks queued" for every queue
content and every task; in particular the timer thread of a
`TimerFuture` that expires after the Executor was dropped invokes the
stored waker and that invocation panics. -/
theorem wake_after_drop_panics (cap : Nat) (queue : List Nat)
    (s : SharedState) (t : Waker) (hw : s.waker = some t) :
    (∀ u, wakeByRef cap false queue u =
      WakeOutcome.panicked "Too many tasks queued") ∧
    (timerExpire s).2 = [t] ∧
    (∀ w, w ∈ (timerExpire s).2 →
      wakeByRef cap false queue w =
        WakeOutcome.panicked "Too many tasks queued") := by
  refine ⟨?_, ?_, ?_⟩
  · intro u
    simp [wakeByRef, syncSend]
  · simp [timerExpire, hw]
  · intro w _
    simp [wakeByRef, syncSend]

theorem wake_after_drop_panics_witness :
    wakeByRef 10000 false [] 0 = WakeOutcome.panicked "Too many tasks queued" ∧
    (timerExpire { completed := false, waker := some 0 }).2 = [0] :=
  ⟨(wake_after_drop_panics 10000 [] { completed := false, waker := some 0 }
      0 rfl).1 0,
   (wake_after_drop_panics 10000 [] { completed := false, waker := some 0 }
      0 rfl).2.1⟩

/-! ### C5: termination of `Executor::run` -/

/-- C5: the run loop returns exactly when the queue is closed (no senders
remain) and fully drained; on an empty queue with senders still open the
`recv` blocks.  Every queued task is processed before the loop ends. -/
theorem run_termination {C : Type} (pollFn : C → Waker → PollRes × C)
    (sendersOpen : Bool) (queue : List Nat) (slots : List (Option C)) :
    ((∃ final, runLoop pollFn sendersOpen queue slots =
        RunOutcome.returned final) ↔ sendersOpen = false) ∧
    ((∃ final, runLoop pollFn sendersOpen queue slots =
        RunOutcome.blockedRecv final) ↔ sendersOpen = true) ∧
    syncRecv ([] : List Nat) sendersOpen =
      (if sendersOpen then RecvResult.wouldBlock else RecvResult.disconnected) := by
  refine ⟨?_, ?_, rfl⟩
  · induction queue generalizing slots with
    | nil =>
      cases sendersOpen <;> simp [runLoop]
    | cons t rest ih =>
      simpa [runLoop] using ih _
  · induction queue generalizing slots with
    | nil =>
      cases sendersOpen <;> simp [runLoop]
    | cons t rest ih =>
      simpa [runLoop] using ih _

theorem run_termination_witness :
    (∃ final, runLoop exampleReady false [0] [some false] =
      RunOutcome.returned final) ∧
    (∃ final, runLoop exampleReady true [] ([] : List (Option Bool)) =
      RunOutcome.blockedRecv final) :=
  ⟨(run_termination exampleReady false [0] [some false]).1.mpr rfl,
   (run_termination exampleReady true [] []).2.1.mpr rfl⟩

/-! ### C8: FIFO order of the task queue -/

/-- C8: two tasks enqueued in order by successful sends with no
intervening dequeue sit at positions `q.length` and `q.length + 1` of the
buffer, and the receiver observes buffered messages in buffer order, so
`a` is dequeued before `b`. -/
theorem queue_fifo_single_producer (cap : Nat) (q qa qb : List Nat)
    (a b : Nat)
    (ha : syncSend cap true q a = SendResult.sent qa)
    (hb : syncSend cap true qa b = SendResult.sent qb) :
    recvSeq qb = qb ∧
    qb[q.length]? = some a ∧
    qb[q.length + 1]? = some b := by
  have hqa : qa = q ++ [a] := by
    by_cases h : q.length < cap
    · simp [syncSend, h] at ha
      exact ha.symm
    · simp [syncSend, h] at ha
  have hqb : qb = q ++ [a] ++ [b] := by
    by_cases h : qa.length < cap
    · simp [syncSend, h] at hb
      rw [← hb, hqa]
    · simp [syncSend, h] at hb
  subst hqb
  refine ⟨recvSeq_eq _, ?_, ?_⟩
  · rw [List.append_assoc, List.getElem?_append_right (Nat.le_refl _)]
    simp
  · rw [List.append_assoc, List.getElem?_append_right (Nat.le_refl _).step]
    simp

theorem queue_fifo_single_producer_witness :
    recvSeq [7, 8] = [7, 8] ∧
    ([7, 8] : List Nat)[0]? = some 7 ∧
    ([7, 8] : List Nat)[0 + 1]? = some 8 :=
  queue_fifo_single_producer 10000 [] [7] [7, 8] 7 8 (by decide) (by decide)

/-! ### Invariants of the transition system -/

theorem isPolling_of_ctl_eq {s : SysState C} {u : Nat} {f : C}
    (h : s.ctl = ExecCtl.polling u f) (t : Nat) :
    s.isPolling t = (u == t) := by
  simp [SysState.isPolling, h]

theorem isPolling_of_idle {s : SysState C} (h : s.ctl = ExecCtl.idle)
    (t : Nat) : s.isPolling t = false := by
  simp [SysState.isPolling, h]

/-- Task `t` has completed: its slot is empty and the executor is not
mid-poll on it. -/
def completedTask (s : SysState C) (t : Nat) : Prop :=
  t < s.slots.length ∧ slotAt s.slots t = none ∧ s.isPolling t = false

theorem completed_step {C : Type} {pollFn : C → Waker → PollRes × C}
    {cap : Nat} {s s2 : SysState C} {l : Label C} {t : Nat}
    (hc : completedTask s t) (h : Step pollFn cap s l s2) :
    completedTask s2 t ∧ runCount t [l] = 0 ∧
    queueCount t s2.queue + skipCount t [l] =
      queueCount t s.queue + wakeCount t [l] := by
  obtain ⟨hlen, hslot, hpoll⟩ := hc
  cases h with
  | wake u hu hcap =>
    refine ⟨⟨hlen, hslot, hpoll⟩, rfl, ?_⟩
    by_cases hut : u = t
    · subst hut
      simp [queueCount_append, queueCount, wakeCount, skipCount]
    · simp [queueCount_append, queueCount, wakeCount, skipCount, hut]
  | spawnTask c hopen hcap =>
    have hne : s.slots.length ≠ t := fun he => absurd (he ▸ hlen) (Nat.lt_irrefl _)
    refine ⟨⟨?_, ?_, hpoll⟩, rfl, ?_⟩
    · simp only [List.length_append, List.length_cons, List.length_nil]
      omega
    · rw [slotAt_append hlen]
      exact hslot
    · simp [queueCount_append, queueCount, wakeCount, skipCount, hne]
  | dropSpawner =>
    exact ⟨⟨hlen, hslot, hpoll⟩, rfl, by simp [wakeCount, skipCount]⟩
  | takeSkip u rest hidle hq hslot2 =>
    refine ⟨⟨hlen, hslot, hpoll⟩, rfl, ?_⟩
    rw [hq]
    by_cases hut : u = t
    · subst hut
      simp [queueCount, wakeCount, skipCount]
      omega
    · simp [queueCount, wakeCount, skipCount, hut]
  | takeRun u rest f hidle hq hslot2 =>
    have hut : u ≠ t := by
      intro he
      rw [he, hslot] at hslot2
      cases hslot2
    refine ⟨⟨?_, ?_, ?_⟩, ?_, ?_⟩
    · simpa [List.length_set] using hlen
    · rw [slotAt_set_ne hut]
      exact hslot
    · simp [SysState.isPolling, hut]
    · simp [runCount, hut]
    · rw [hq]
      simp [queueCount, wakeCount, skipCount, hut]
  | finishPoll u f hctl =>
    have hbeq : s.isPolling t = (u == t) := isPolling_of_ctl_eq hctl t
    have hut : u ≠ t := by
      intro he
      rw [hbeq, he] at hpoll
      simp at hpoll
    rcases hpq : pollFn f u with ⟨r, f2⟩
    cases r
    · refine ⟨⟨hlen, hslot, ?_⟩, rfl, by simp [wakeCount, skipCount]⟩
      simp [SysState.isPolling]
    · refine ⟨⟨?_, ?_, ?_⟩, rfl, by simp [wakeCount, skipCount]⟩
      · show t < (s.slots.set u (some f2)).length
        simpa [List.length_set] using hlen
      · show slotAt (s.slots.set u (some f2)) t = none
        rw [slotAt_set_ne hut]
        exact hslot
      · simp [SysState.isPolling]

theorem completed_trace {C : Type} {pollFn : C → Waker → PollRes × C}
    {cap : Nat} {s s2 : SysState C} {ls : List (Label C)} {t : Nat}
    (htr : Steps pollFn cap s ls s2) :
    completedTask s t →
    completedTask s2 t ∧ runCount t ls = 0 ∧
    queueCount t s2.queue + skipCount t ls =
      queueCount t s.queue + wakeCount t ls := by
  induction htr with
  | nil s =>
    intro hc
    exact ⟨hc, rfl, rfl⟩
  | cons h hs ih =>
    intro hc
    obtain ⟨hc1, hrun1, hq1⟩ := completed_step hc h
    obtain ⟨hc2, hrun2, hq2⟩ := ih hc1
    refine ⟨hc2, ?_, ?_⟩
    · rw [runCount_cons]
      omega
    · rw [skipCount_cons, wakeCount_cons]
      omega

/-! ### C2: completion finality -/

/-- C2: once a task's poll has reported Ready the finishing step leaves
the slot empty, and in every subsequent trace the task is never polled
again (`runCount` stays 0); each later wake of the task adds exactly one
queue entry that is later removed by a skip, so the number of queued
copies never exceeds the wakes received. -/
theorem completion_finality {C : Type} {pollFn : C → Waker → PollRes × C}
    {cap : Nat} {s s2 s3 : SysState C} {t : Nat} {f : C}
    {ls : List (Label C)}
    (hctl : s.ctl = ExecCtl.polling t f)
    (hlen : t < s.slots.length)
    (hslot : slotAt s.slots t = none)
    (hready : (pollFn f t).1 = PollRes.ready)
    (hfin : Step pollFn cap s (Label.finishPoll t) s2)
    (htr : Steps pollFn cap s2 ls s3) :
    completedTask s2 t ∧ completedTask s3 t ∧ runCount t ls = 0 ∧
    queueCount t s3.queue + skipCount t ls =
      queueCount t s2.queue + wakeCount t ls := by
  have hc2 : completedTask s2 t := by
    cases hfin with
    | finishPoll u f2 hctl2 =>
      rw [hctl] at hctl2
      injection hctl2 with h1 h2
      subst h2
      rcases hpq : pollFn f t with ⟨r, f3⟩
      rw [hpq] at hready
      have hr : r = PollRes.ready := hready
      subst hr
      exact ⟨hlen, hslot, by simp [SysState.isPolling]⟩
  obtain ⟨hc3, hrun, hq⟩ := completed_trace htr hc2
  exact ⟨hc2, hc3, hrun, hq⟩

theorem completion_finality_witness :
    runCount 0 ([Label.wake 0, Label.takeSkip 0] : List (Label Bool)) = 0 ∧
    queueCount 0 ([] : List Nat) +
        skipCount 0 ([Label.wake 0, Label.takeSkip 0] : List (Label Bool)) =
      queueCount 0 ([] : List Nat) +
        wakeCount 0 ([Label.wake 0, Label.takeSkip 0] : List (Label Bool)) := by
  have hctl : (SysState.mk [] [none] (ExecCtl.polling 0 true) true).ctl =
      ExecCtl.polling 0 true := rfl
  have hlen : (0 : Nat) <
      (SysState.mk [] [none] (ExecCtl.polling 0 true) true).slots.length := by
    decide
  have hslot :
      slotAt (SysState.mk [] [none] (ExecCtl.polling 0 true) true).slots 0 =
        none := rfl
  have hready : (exampleReady true 0).1 = PollRes.ready := rfl
  have hfin : Step exampleReady 10000
      (SysState.mk [] [none] (ExecCtl.polling 0 true) true)
      (Label.finishPoll 0)
      (SysState.mk [] [none] ExecCtl.idle true) :=
    Step.finishPoll _ 0 true rfl
  have h1 : Step exampleReady 10000
      (SysState.mk [] [none] ExecCtl.idle true)
      (Label.wake 0)
      (SysState.mk [0] [none] ExecCtl.idle true) :=
    Step.wake _ 0 (by decide) (by decide)
  have h2 : Step exampleReady 10000
      (SysState.mk [0] [none] ExecCtl.idle true)
      (Label.takeSkip 0)
      (SysState.mk [] [none] ExecCtl.idle true) :=
    Step.takeSkip _ 0 [] rfl rfl rfl
  have htr := Steps.cons h1 (Steps.cons h2
      (Steps.nil (SysState.mk [] [none] ExecCtl.idle true)))
  have h := completion_finality hctl hlen hslot hready hfin htr
  exact ⟨h.2.2.1, h.2.2.2⟩

/-! ### C3: wake correctness -/

/-- Task `t` is suspended: its computation is parked in the slot awaiting
a wake, it is not queued, and it is not being polled. -/
def suspendedTask (s : SysState C) (t : Nat) : Prop :=
  (∃ f, slotAt s.slots t = some f) ∧ queueCount t s.queue = 0 ∧
    s.isPolling t = false

/-- Phase invariant for one task `t` after it suspends, relating its state
to the number of polls and wakes of `t` since suspension: the task is
either suspended (`polls = wakes`), queued exactly once awaiting its poll
(`polls + 1 = wakes`), being polled, or completed. -/
def wakePhase (t : Nat) (s : SysState C) (polls wakes : Nat) : Prop :=
  ((∃ f, slotAt s.slots t = some f) ∧ queueCount t s.queue = 0 ∧
      s.isPolling t = false ∧ polls = wakes) ∨
  ((∃ f, slotAt s.slots t = some f) ∧ queueCount t s.queue = 1 ∧
      s.isPolling t = false ∧ polls + 1 = wakes) ∨
  (t < s.slots.length ∧ slotAt s.slots t = none ∧
      queueCount t s.queue = 0 ∧ s.isPolling t = true ∧
      polls = wakes ∧ 1 ≤ polls) ∨
  (t < s.slots.length ∧ slotAt s.slots t = none ∧
      queueCount t s.queue = 0 ∧ s.isPolling t = false ∧
      polls = wakes ∧ 1 ≤ polls)

theorem wakePhase_lt_length {t polls wakes : Nat} {s : SysState C}
    (hp : wakePhase t s polls wakes) : t < s.slots.length := by
  rcases hp with ⟨⟨f, hf⟩, -⟩ | ⟨⟨f, hf⟩, -⟩ | ⟨hlt, -⟩ | ⟨hlt, -⟩
  exacts [slotAt_lt_length hf, slotAt_lt_length hf, hlt, hlt]

theorem wakePhase_mono {t polls wakes : Nat} {s s2 : SysState C}
    (hq : queueCount t s2.queue = queueCount t s.queue)
    (hlen : s.slots.length ≤ s2.slots.length)
    (hsl : slotAt s2.slots t = slotAt s.slots t)
    (hip : s2.isPolling t = s.isPolling t)
    (hp : wakePhase t s polls wakes) : wakePhase t s2 polls wakes := by
  unfold wakePhase at hp ⊢
  rw [hq, hsl, hip]
  rcases hp with h | h | ⟨h1, h⟩ | ⟨h1, h⟩
  · exact Or.inl h
  · exact Or.inr (Or.inl h)
  · exact Or.inr (Or.inr (Or.inl ⟨Nat.lt_of_lt_of_le h1 hlen, h⟩))
  · exact Or.inr (Or.inr (Or.inr ⟨Nat.lt_of_lt_of_le h1 hlen, h⟩))

theorem wakePhase_step {C : Type} {pollFn : C → Waker → PollRes × C}
    {cap : Nat} {s s2 : SysState C} {l : Label C} {t polls wakes : Nat}
    (hp : wakePhase t s polls wakes) (h : Step pollFn cap s l s2)
    (hbudget : wakes + wakeCount t [l] ≤ 1) :
    wakePhase t s2 (polls + runCount t [l]) (wakes + wakeCount t [l]) := by
  cases h with
  | wake u hu hcap =>
    by_cases hut : u = t
    · subst hut
      have hw : wakeCount u ([Label.wake u] : List (Label C)) = 1 := by
        simp [wakeCount]
      have hr : runCount u ([Label.wake u] : List (Label C)) = 0 := rfl
      rw [hw] at hbudget
      simp only [hw, hr, Nat.add_zero]
      have hwz : wakes = 0 := by omega
      subst hwz
      rcases hp with ⟨hf, hq, hip, he⟩ | ⟨hf, hq, hip, he⟩ |
        ⟨hlt, hn, hq, hip, he, hge⟩ | ⟨hlt, hn, hq, hip, he, hge⟩
      · refine Or.inr (Or.inl ⟨hf, ?_, hip, by omega⟩)
        show queueCount u (s.queue ++ [u]) = 1
        rw [queueCount_append, hq]
        simp [queueCount]
      · exact absurd he (by omega)
      · exact absurd hge (by omega)
      · exact absurd hge (by omega)
    · have hw : wakeCount t ([Label.wake u] : List (Label C)) = 0 := by
        simp [wakeCount, hut]
      have hr : runCount t ([Label.wake u] : List (Label C)) = 0 := rfl
      simp only [hw, hr, Nat.add_zero]
      refine wakePhase_mono ?_ ?_ ?_ ?_ hp
      · show queueCount t (s.queue ++ [u]) = queueCount t s.queue
        rw [queueCount_append]
        simp [queueCount, hut]
      · exact Nat.le_refl _
      · rfl
      · rfl
  | spawnTask c hopen hcap =>
    have hlt := wakePhase_lt_length hp
    have hne : s.slots.length ≠ t :=
      fun he => absurd (he ▸ hlt) (Nat.lt_irrefl _)
    have hw : wakeCount t ([Label.spawnTask c] : List (Label C)) = 0 := rfl
    have hr : runCount t ([Label.spawnTask c] : List (Label C)) = 0 := rfl
    simp only [hw, hr, Nat.add_zero]
    refine wakePhase_mono ?_ ?_ ?_ ?_ hp
    · show queueCount t (s.queue ++ [s.slots.length]) = queueCount t s.queue
      rw [queueCount_append]
      simp [queueCount, hne]
    · show s.slots.length ≤ (s.slots ++ [some c]).length
      simp
    · show slotAt (s.slots ++ [some c]) t = slotAt s.slots t
      exact slotAt_append hlt
    · rfl
  | dropSpawner =>
    have hw : wakeCount t ([Label.dropSpawner] : List (Label C)) = 0 := rfl
    have hr : runCount t ([Label.dropSpawner] : List (Label C)) = 0 := rfl
    simp only [hw, hr, Nat.add_zero]
    refine wakePhase_mono ?_ ?_ ?_ ?_ hp
    · rfl
    · exact Nat.le_refl _
    · rfl
    · rfl
  | takeSkip u rest hidle hq0 hslot0 =>
    by_cases hut : u = t
    · subst hut
      exfalso
      rcases hp with ⟨⟨f, hf⟩, hq, hip, he⟩ | ⟨⟨f, hf⟩, hq, hip, he⟩ |
        ⟨hlt, hn, hq, hip, he, hge⟩ | ⟨hlt, hn, hq, hip, he, hge⟩
      · rw [hf] at hslot0
        cases hslot0
      · rw [hf] at hslot0
        cases hslot0
      · rw [hq0] at hq
        simp [queueCount] at hq
      · rw [hq0] at hq
        simp [queueCount] at hq
    · have hw : wakeCount t ([Label.takeSkip u] : List (Label C)) = 0 := rfl
      have hr : runCount t ([Label.takeSkip u] : List (Label C)) = 0 := rfl
      simp only [hw, hr, Nat.add_zero]
      refine wakePhase_mono ?_ ?_ ?_ ?_ hp
      · show queueCount t rest = queueCount t s.queue
        rw [hq0]
        simp [queueCount, hut]
      · exact Nat.le_refl _
      · rfl
      · rfl
  | takeRun u rest f hidle hq0 hslot0 =>
    by_cases hut : u = t
    · subst hut
      have hw : wakeCount u ([Label.takeRun u] : List (Label C)) = 0 := rfl
      have hr : runCount u ([Label.takeRun u] : List (Label C)) = 1 := by
        simp [runCount]
      simp only [hw, hr, Nat.add_zero]
      rcases hp with ⟨⟨f2, hf⟩, hq, hip, he⟩ | ⟨⟨f2, hf⟩, hq, hip, he⟩ |
        ⟨hlt, hn, hq, hip, he, hge⟩ | ⟨hlt, hn, hq, hip, he, hge⟩
      · exfalso
        rw [hq0] at hq
        simp [queueCount] at hq
      · have hlt : u < s.slots.length := slotAt_lt_length hslot0
        have hrest : queueCount u rest = 0 := by
          have hc : queueCount u (u :: rest) = 1 + queueCount u rest := by
            simp [queueCount]
          rw [hq0, hc] at hq
          omega
        refine Or.inr (Or.inr (Or.inl ⟨?_, ?_, hrest, ?_, by omega, by omega⟩))
        · show u < (s.slots.set u none).length
          simpa [List.length_set] using hlt
        · show slotAt (s.slots.set u none) u = none
          exact slotAt_set_self hlt none
        · simp [SysState.isPolling]
      · exfalso
        rw [isPolling_of_idle hidle] at hip
        cases hip
      · exfalso
        rw [hq0] at hq
        simp [queueCount] at hq
    · have hw : wakeCount t ([Label.takeRun u] : List (Label C)) = 0 := rfl
      have hr : runCount t ([Label.takeRun u] : List (Label C)) = 0 := by
        simp [runCount, hut]
      simp only [hw, hr, Nat.add_zero]
      refine wakePhase_mono ?_ ?_ ?_ ?_ hp
      · show queueCount t rest = queueCount t s.queue
        rw [hq0]
        simp [queueCount, hut]
      · show s.slots.length ≤ (s.slots.set u none).length
        simp [List.length_set]
      · show slotAt (s.slots.set u none) t = slotAt s.slots t
        exact slotAt_set_ne hut none
      · rw [isPolling_of_idle hidle]
        simp [SysState.isPolling, hut]
  | finishPoll u f hctl =>
    have hw : wakeCount t ([Label.finishPoll u] : List (Label C)) = 0 := rfl
    have hr : runCount t ([Label.finishPoll u] : List (Label C)) = 0 := rfl
    simp only [hw, hr, Nat.add_zero]
    by_cases hut : u = t
    · subst hut
      rcases hp with ⟨hf2, hq, hip, he⟩ | ⟨hf2, hq, hip, he⟩ |
        ⟨hlt, hn, hq, hip, he, hge⟩ | ⟨hlt, hn, hq, hip, he, hge⟩
      · exfalso
        rw [isPolling_of_ctl_eq hctl] at hip
        simp at hip
      · exfalso
        rw [isPolling_of_ctl_eq hctl] at hip
        simp at hip
      · rcases hpq : pollFn f u with ⟨r, f3⟩
        cases r
        · refine Or.inr (Or.inr (Or.inr ⟨hlt, hn, hq, ?_, he, hge⟩))
          simp [SysState.isPolling]
        · refine Or.inl ⟨⟨f3, ?_⟩, hq, ?_, he⟩
          · show slotAt (s.slots.set u (some f3)) u = some f3
            exact slotAt_set_self hlt (some f3)
          · simp [SysState.isPolling]
      · exfalso
        rw [isPolling_of_ctl_eq hctl] at hip
        simp at hip
    · refine wakePhase_mono ?_ ?_ ?_ ?_ hp
      · rfl
      · rcases hpq : pollFn f u with ⟨r, f3⟩
        cases r
        · exact Nat.le_refl _
        · show s.slots.length ≤ (s.slots.set u (some f3)).length
          simp [List.length_set]
      · rcases hpq : pollFn f u with ⟨r, f3⟩
        cases r
        · rfl
        · show slotAt (s.slots.set u (some f3)) t = slotAt s.slots t
          exact slotAt_set_ne hut (some f3)
      · rw [isPolling_of_ctl_eq hctl]
        simp [SysState.isPolling, hut]

theorem wakePhase_trace {C : Type} {pollFn : C → Waker → PollRes × C}
    {cap : Nat} {s s2 : SysState C} {ls : List (Label C)} {t : Nat}
    (htr : Steps pollFn cap s ls s2) :
    ∀ polls wakes, wakePhase t s polls wakes →
      wakes + wakeCount t ls ≤ 1 →
      wakePhase t s2 (polls + runCount t ls) (wakes + wakeCount t ls) := by
  induction htr with
  | nil s =>
    intro polls wakes hp hb
    simpa [runCount, wakeCount] using hp
  | @cons s s1 s2 l ls h hs ih =>
    intro polls wakes hp hb
    rw [wakeCount_cons] at hb
    have h1 := wakePhase_step hp h (by omega)
    have h2 := ih (polls + runCount t [l]) (wakes + wakeCount t [l]) h1
      (by omega)
    rw [wakeCount_cons, runCount_cons, ← Nat.add_assoc, ← Nat.add_assoc]
    exact h2

/-- C3: a task suspended after a Pending poll is never polled again if its
waker is never invoked (no spurious re-polls), and is polled again exactly
once as the consequence of a single waker invocation, observed at any
point where the executor has processed the resulting queue entry. -/
theorem wake_correctness {C : Type} {pollFn : C → Waker → PollRes × C}
    {cap : Nat} {s s2 : SysState C} {t : Nat} {ls : List (Label C)}
    (hsusp : suspendedTask s t)
    (htr : Steps pollFn cap s ls s2) :
    (wakeCount t ls = 0 → runCount t ls = 0) ∧
    (wakeCount t ls = 1 → queueCount t s2.queue = 0 →
      s2.isPolling t = false → runCount t ls = 1) := by
  obtain ⟨hf, hq, hip⟩ := hsusp
  have hp0 : wakePhase t s 0 0 := Or.inl ⟨hf, hq, hip, rfl⟩
  constructor
  · intro hw
    have h2 := wakePhase_trace htr 0 0 hp0 (by omega)
    rw [hw] at h2
    rcases h2 with ⟨-, -, -, he⟩ | ⟨-, -, -, he⟩ |
      ⟨-, -, -, -, he, hge⟩ | ⟨-, -, -, -, he, hge⟩ <;> omega
  · intro hw hqf hipf
    have h2 := wakePhase_trace htr 0 0 hp0 (by omega)
    rw [hw] at h2
    rcases h2 with ⟨-, -, -, he⟩ | ⟨-, hq2, -, he⟩ |
      ⟨-, -, -, hip2, he, -⟩ | ⟨-, -, -, -, he, -⟩
    · omega
    · omega
    · rw [hipf] at hip2
      cases hip2
    · omega

theorem wake_correctness_witness :
    runCount 0
      ([Label.wake 0, Label.takeRun 0, Label.finishPoll 0] :
        List (Label Bool)) = 1 := by
  have hsusp : suspendedTask (SysState.mk [] [some true] ExecCtl.idle true)
      0 :=
    ⟨⟨true, rfl⟩, rfl, rfl⟩
  have h1 : Step exampleReady 10000
      (SysState.mk [] [some true] ExecCtl.idle true)
      (Label.wake 0)
      (SysState.mk [0] [some true] ExecCtl.idle true) :=
    Step.wake _ 0 (by decide) (by decide)
  have h2 : Step exampleReady 10000
      (SysState.mk [0] [some true] ExecCtl.idle true)
      (Label.takeRun 0)
      (SysState.mk [] [none] (ExecCtl.polling 0 true) true) :=
    Step.takeRun _ 0 [] true rfl rfl rfl
  have h3 : Step exampleReady 10000
      (SysState.mk [] [none] (ExecCtl.polling 0 true) true)
      (Label.finishPoll 0)
      (SysState.mk [] [none] ExecCtl.idle true) :=
    Step.finishPoll _ 0 true rfl
  have htr := Steps.cons h1 (Steps.cons h2 (Steps.cons h3
      (Steps.nil (SysState.mk [] [none] ExecCtl.idle true))))
  exact (wake_correctness hsusp htr).2 rfl rfl rfl

/-! ### C10: at most one poll in flight -/

/-- Invariant tying the executor control state to the slots: while the
executor is polling task `t`, the computation is out of the slot, so the
slot is empty. -/
def slotInv (s : SysState C) : Prop :=
  ∀ t f, s.ctl = ExecCtl.polling t f →
    t < s.slots.length ∧ slotAt s.slots t = none

theorem slotInv_step {C : Type} {pollFn : C → Waker → PollRes × C}
    {cap : Nat} {s s2 : SysState C} {l : Label C}
    (hinv : slotInv s) (h : Step pollFn cap s l s2) : slotInv s2 := by
  cases h with
  | wake u hu hcap => exact hinv
  | spawnTask c hopen hcap =>
    intro t f hctl
    obtain ⟨hlt, hn⟩ := hinv t f hctl
    constructor
    · show t < (s.slots ++ [some c]).length
      simp
      omega
    · show slotAt (s.slots ++ [some c]) t = none
      rw [slotAt_append hlt]
      exact hn
  | dropSpawner => exact hinv
  | takeSkip u rest hidle hq0 hslot0 => exact hinv
  | takeRun u rest f hidle hq0 hslot0 =>
    intro t f2 hctl
    have h2 : ExecCtl.polling u f = ExecCtl.polling t f2 := hctl
    injection h2 with e1 e2
    subst e1
    have hlt : u < s.slots.length := slotAt_lt_length hslot0
    constructor
    · show u < (s.slots.set u none).length
      simpa [List.length_set] using hlt
    · show slotAt (s.slots.set u none) u = none
      exact slotAt_set_self hlt none
  | finishPoll u f hctl =>
    intro t f2 hctl2
    have h2 : ExecCtl.idle = ExecCtl.polling t f2 := hctl2
    cases h2

theorem slotInv_trace {C : Type} {pollFn : C → Waker → PollRes × C}
    {cap : Nat} {s s2 : SysState C} {ls : List (Label C)}
    (htr : Steps pollFn cap s ls s2) : slotInv s → slotInv s2 := by
  induction htr with
  | nil s => exact id
  | cons h hs ih => exact fun hinv => ih (slotInv_step hinv h)

/-- C10: in every state reachable from a state satisfying the slot
invariant, the single executor control state is polling at most one task
at a time; while a task is being polled its computation is out of its
mutex-guarded slot (the slot is empty, so no other agent can also obtain
it); and a waker invocation from any thread never touches any slot or the
executor control state. -/
theorem at_most_one_poll_in_flight {C : Type}
    {pollFn : C → Waker → PollRes × C} {cap : Nat} {s s2 : SysState C}
    {ls : List (Label C)}
    (hinv : slotInv s) (htr : Steps pollFn cap s ls s2) :
    slotInv s2 ∧
    (∀ t1 f1 t2 f2, s2.ctl = ExecCtl.polling t1 f1 →
      s2.ctl = ExecCtl.polling t2 f2 → t1 = t2 ∧ f1 = f2) ∧
    (∀ t f, s2.ctl = ExecCtl.polling t f → slotAt s2.slots t = none) ∧
    (∀ (s3 s4 : SysState C) (u : Nat),
      Step pollFn cap s3 (Label.wake u) s4 →
      s4.slots = s3.slots ∧ s4.ctl = s3.ctl) := by
  have hinv2 := slotInv_trace htr hinv
  refine ⟨hinv2, ?_, ?_, ?_⟩
  · intro t1 f1 t2 f2 ha hb
    rw [ha] at hb
    injection hb with e1 e2
    exact ⟨e1, e2⟩
  · intro t f hctl
    exact (hinv2 t f hctl).2
  · intro s3 s4 u hw
    cases hw with
    | wake u hu hcap => exact ⟨rfl, rfl⟩

theorem at_most_one_poll_in_flight_witness :
    slotAt ([none] : List (Option Bool)) 0 = none := by
  have hinv : slotInv (SysState.mk [0] [some true] ExecCtl.idle true) := by
    intro t f h
    cases h
  have h1 : Step exampleReady 10000
      (SysState.mk [0] [some true] ExecCtl.idle true)
      (Label.takeRun 0)
      (SysState.mk [] [none] (ExecCtl.polling 0 true) true) :=
    Step.takeRun _ 0 [] true rfl rfl rfl
  have htr := Steps.cons h1
    (Steps.nil (SysState.mk [] [none] (ExecCtl.polling 0 true) true))
  exact (at_most_one_poll_in_flight hinv htr).2.2.1 0 true rfl
